import Mathlib

/-!
Verification development for `gglm/glm/mmdglm_forgetting_samples.py` (class
`MMDGLM2`).  The definitions below are a shallow embedding of the pieces of
the source that the specification talks about: the nonlinearity table, the
rate computation, the negative log-likelihood, the unbiased-estimator
denominator, the bounded "forgetting" history buffer of the training loop,
the per-entry discount weights, and the control-flow skeleton of one epoch
of `MMDGLM2.train`.
-/

namespace MMDGLM

/-- The two nonlinearities of `dic_nonlinearities` (source line 12). -/
inductive NonLinearity
  | exp
  | log_exp
deriving DecidableEq

noncomputable section

/-- `dic_nonlinearities = {'exp': exp(x), 'log_exp': log(1 + exp(x))}`
(source line 12), over the reals. -/
def dic_nonlinearities : NonLinearity → ℝ → ℝ
  | NonLinearity.exp => fun x => Real.exp x
  | NonLinearity.log_exp => fun x => Real.log (1 + Real.exp x)

/-- The contraction `u = einsum('tka,a->tk', X, theta)` (source lines 46, 66,
75), with the `(t, k)` bin grid flattened to one list of bins: each bin
carries its row of basis features, and `u` for a bin is the dot product of
that row with `theta`. -/
def contraction (X : List (List ℝ)) (theta : List ℝ) : List ℝ :=
  X.map (fun row => (List.zipWith (fun a b => a * b) row theta).sum)

/-- The rate `r = non_linearity(u)` applied binwise (source lines 47, 67,
76). -/
def rate (nl : NonLinearity) (X : List (List ℝ)) (theta : List ℝ) : List ℝ :=
  (contraction X theta).map (dic_nonlinearities nl)

/-- `MMDGLM2._neg_log_likelihood` (source lines 64-70):
`-( sum(log(1 - exp(-dt*r)) * mask) - dt * sum(r * (1 - mask)) )`, with the
bin grid flattened; `mask` holds the spike mask as reals in {0,1}. -/
def neg_log_likelihood (nl : NonLinearity) (dt : ℝ) (mask : List ℝ)
    (X : List (List ℝ)) (theta : List ℝ) : ℝ :=
  -((List.zipWith (fun r s => Real.log (1 - Real.exp (-dt * r)) * s)
      (rate nl X theta) mask).sum
    - dt * (List.zipWith (fun r s => r * (1 - s)) (rate nl X theta) mask).sum)

/-- Modelled from the spec (section 4.2): the closed form
`NLL = -( Σ log(1 - exp(-dt·r)) · spikes − dt · Σ r · (1 − spikes) )`.
Written from the spec's words, to be compared with `neg_log_likelihood`. -/
def specNLL (nl : NonLinearity) (dt : ℝ) (mask : List ℝ)
    (X : List (List ℝ)) (theta : List ℝ) : ℝ :=
  -((List.zipWith (fun r s => Real.log (1 - Real.exp (-dt * r)) * s)
      (rate nl X theta) mask).sum
    - dt * (List.zipWith (fun r s => r * (1 - s)) (rate nl X theta) mask).sum)

/-- The argument of the logarithm in `_neg_log_likelihood`'s spiking term
(source line 68): `1 - exp(-dt * r)`, with no epsilon. -/
def nll_log_argument (dt r : ℝ) : ℝ := 1 - Real.exp (-dt * r)

/-- The argument of the logarithm in the surrogate `log_proba` of `train`
(source line 127): `1 - exp(-dt * r) + 1e-24`. -/
def surrogate_log_argument (dt r : ℝ) : ℝ := 1 - Real.exp (-dt * r) + 1e-24

/-- One bin's spiking term of `_neg_log_likelihood` (source line 68):
`log(1 - exp(-dt*r)) * s`. -/
def nll_log_term (dt r s : ℝ) : ℝ := Real.log (nll_log_argument dt r) * s

/-- One bin's spiking term of the surrogate `log_proba` (source line 127):
`log(1 - exp(-dt*r) + 1e-24) * s`. -/
def surrogate_log_term (dt r s : ℝ) : ℝ := Real.log (surrogate_log_argument dt r) * s

end

/-- The denominator `n_batch_fr * (n_batch_fr - 1)` of the unbiased
MMD-surrogate estimator, used in both the feature-map mode (source line 139)
and the kernel mode (source line 153); `n_batch_fr` is a Python int. -/
def unbiased_denominator (n_batch_fr : ℤ) : ℤ := n_batch_fr * (n_batch_fr - 1)

/-! ## The history buffer

`MMDGLM2.train` keeps `r_fr_list` and `mask_spikes_fr_list` in sync (source
lines 116-123):

    if len(mask_spikes_fr_list) >= n_iterations_store:
        r_fr_list.pop(0)
        mask_spikes_fr_list.pop(0)
    r_fr_list.append(_r_fr)
    mask_spikes_fr_list.append(_mask_spikes_fr)

so the buffer is a Python list holding the entries oldest first: `pop(0)`
removes the head, `append` adds at the tail. -/

/-- One buffer update of `train` (source lines 116-123): drop the oldest
entry when the length has reached `n_iterations_store`, then append. -/
def bufferPush (cap : ℕ) (buf : List α) (x : α) : List α :=
  (if cap ≤ buf.length then buf.drop 1 else buf) ++ [x]

/-- The buffer reached by starting from the empty list (source line 106) and
pushing each element of `xs` in order. -/
def pushAll (cap : ℕ) (xs : List α) : List α :=
  xs.foldl (bufferPush cap) []

noncomputable section

/-- The per-entry discount factors `beta ** np.arange(m)` (source line 132),
where `m = len(mask_spikes_fr_list)`; index `i` is the buffer position,
oldest first. -/
def entry_weights (beta : ℝ) (m : ℕ) : List ℝ :=
  (List.range m).map (fun i => beta ^ i)

/-- `weights = np.repeat(beta ** np.arange(m), n_batch_fr)` (source line
132): each entry's factor repeated once per trial column of that entry,
aligned with the columns of `phi_fr` (whose columns follow the buffer
order, oldest first, by `torch.cat(mask_spikes_fr_list, 1)`). -/
def weights_code (beta : ℝ) (m n_batch_fr : ℕ) : List ℝ :=
  (entry_weights beta m).flatMap (List.replicate n_batch_fr)

/-- The effective weighted feature columns of the buffered batch: the buffer
entries (each a list of per-column features) concatenated oldest first, the
entry at buffer position `i` scaled by `beta ^ i`, exactly as
`phi_fr * weights` does after `torch.cat` (source lines 124-133). -/
def effective_phi (beta : ℝ) (buf : List (List ℝ)) : List ℝ :=
  (buf.enum.map (fun p => p.2.map (fun x => x * beta ^ p.1))).flatten

end

/-- The spike-mask tensor passed to `self._score` in the control-variate
step (source line 172): `mask_spikes_fr`, i.e. the concatenation
`torch.cat(mask_spikes_fr_list, 1)` of the whole buffer after this epoch's
update (source line 125), not the fresh minibatch's mask alone.  Each entry
is a list of trial columns. -/
def score_mask_arg (cap : ℕ) (buf : List (List α)) (freshMask : List α) : List α :=
  (bufferPush cap buf freshMask).flatten

/-! ## The epoch state machine

The body of the `for epoch in range(num_epochs)` loop of `MMDGLM2.train`
(source lines 107-244) is straight-line code; the steps named by the spec
occur at these lines: SampleStep 114, BufferUpdate 116-123, LossAssembly
124-164, Backprop 166-169, ControlVariateInjection 171-188 (when
`control_variates`), GradientClip 189-190 (when `clip is not None`),
MetricsRecord 192-235 (when `epoch % n_metrics == 0`), OptimizerStep 237,
ParamSync 241-242. -/

/-- The steps of one epoch named by the spec's state machine. -/
inductive Step
  | sampleStep
  | bufferUpdate
  | lossAssembly
  | backprop
  | controlVariateInjection
  | gradientClip
  | optimizerStep
  | paramSync
  | metricsRecord
deriving DecidableEq

/-- The sequence of steps executed by one epoch of `train`, in source
order; `cv` is `control_variates`, `cl` is `clip is not None`, `rec` is
`epoch % n_metrics == 0`. -/
def epochTrace (cv cl rec : Bool) : List Step :=
  [Step.sampleStep, Step.bufferUpdate, Step.lossAssembly, Step.backprop]
    ++ (if cv then [Step.controlVariateInjection] else [])
    ++ (if cl then [Step.gradientClip] else [])
    ++ (if rec then [Step.metricsRecord] else [])
    ++ [Step.optimizerStep, Step.paramSync]

/-! ## The output skeleton of `train`

`loss.append(_loss.item())` runs once per epoch (source line 244).
`metrics_list` is assigned only inside the loop, at a recorded epoch: it is
created when `epoch == 0` (source lines 231-232, reachable because
`0 % n_metrics == 0`) and extended at later recorded epochs (lines
233-235).  The final `return loss, nll, metrics_list` (line 249) therefore
raises `UnboundLocalError` when the loop never ran. -/

/-- State carried across epochs by the output skeleton: the `loss` list
(entries stood for by their epoch index) and `metrics_list`
(`none` = not yet assigned). -/
def metricsFold (n_metrics : ℕ) (st : List ℕ × Option (List ℕ)) (epoch : ℕ) :
    List ℕ × Option (List ℕ) :=
  (st.1 ++ [epoch],
    if epoch % n_metrics = 0 then
      (if epoch = 0 then some [epoch] else st.2.map (fun l => l ++ [epoch]))
    else st.2)

/-- The output state of `train` after its `num_epochs` epochs. -/
def trainSkeleton (num_epochs n_metrics : ℕ) : List ℕ × Option (List ℕ) :=
  (List.range num_epochs).foldl (metricsFold n_metrics) ([], none)

/-- The `return loss, nll, metrics_list` statement (source line 249):
yields a value only when `metrics_list` has been assigned, otherwise the
return fails (`UnboundLocalError`), modelled as `none`. -/
def trainReturn (num_epochs n_metrics : ℕ) : Option (List ℕ × List ℕ) :=
  (trainSkeleton num_epochs n_metrics).2.map
    (fun ml => ((trainSkeleton num_epochs n_metrics).1, ml))

end MMDGLM

namespace MMDGLM

/-- Helper: the buffer after any sequence of pushes is the suffix of the
pushed elements that fits the capacity. -/
theorem pushAll_eq_drop {α : Type} (cap : ℕ) (hcap : 1 ≤ cap) (xs : List α) :
    pushAll cap xs = xs.drop (xs.length - cap) := by
  induction xs using List.reverseRecOn with
  | nil => simp [pushAll]
  | append_singleton ys y ih =>
    have hstep : pushAll cap (ys ++ [y]) = bufferPush cap (pushAll cap ys) y := by
      simp [pushAll, List.foldl_append]
    have hL : (ys ++ [y]).length = ys.length + 1 := by simp
    rw [hstep, ih, hL]
    by_cases h : cap ≤ ys.length
    · have hlen : (ys.drop (ys.length - cap)).length = cap := by
        rw [List.length_drop]; omega
      have hgoal : cap ≤ (ys.drop (ys.length - cap)).length := by omega
      have h2 : ys.length + 1 - cap ≤ ys.length := by omega
      rw [bufferPush, if_pos hgoal, List.drop_drop]
      have h1 : ys.length - cap + 1 = ys.length + 1 - cap := by omega
      rw [h1, List.drop_append_of_le_length h2]
    · have h0 : ys.length - cap = 0 := by omega
      have h0' : ys.length + 1 - cap = 0 := by omega
      rw [h0, h0', List.drop_zero, List.drop_zero, bufferPush, if_neg h]

/-- C2: For every capacity `n_iterations_store ≥ 1` and every sequence of
pushes, the buffer's length never exceeds the capacity, and after pushing
`capacity + k` entries (`k ≥ 1`) the buffer holds exactly the `capacity`
most recently pushed entries in insertion order (eviction removes the
oldest entry, index 0, before each append at capacity). -/
theorem buffer_fifo_bounded {α : Type} (cap : ℕ) (hcap : 1 ≤ cap) (xs : List α) :
    (pushAll cap xs).length ≤ cap ∧
    pushAll cap xs = xs.drop (xs.length - cap) := by
  refine ⟨?_, pushAll_eq_drop cap hcap xs⟩
  rw [pushAll_eq_drop cap hcap xs, List.length_drop]
  omega

/-- Witness for C2 at capacity 2 and three pushes: the buffer keeps the
last two entries, in order. -/
theorem buffer_fifo_bounded_witness :
    1 ≤ 2 ∧ (pushAll 2 [0, 1, 2]).length ≤ 2 ∧
      pushAll 2 [0, 1, 2] = List.drop ([0, 1, 2].length - 2) [0, 1, 2] :=
  ⟨by decide, buffer_fifo_bounded 2 (by decide) [0, 1, 2]⟩

/-- Helper: the loop appends one loss entry per epoch. -/
theorem trainSkeleton_loss_length (num_epochs n_metrics : ℕ) :
    (trainSkeleton num_epochs n_metrics).1.length = num_epochs := by
  induction num_epochs with
  | zero => simp [trainSkeleton]
  | succ k ih =>
    have hstep : trainSkeleton (k + 1) n_metrics =
        metricsFold n_metrics (trainSkeleton k n_metrics) k := by
      simp [trainSkeleton, List.range_succ, List.foldl_append]
    rw [hstep, metricsFold]
    simp [ih]

/-- Helper: after at least one epoch, `metrics_list` has been assigned. -/
theorem trainSkeleton_ml_isSome (num_epochs n_metrics : ℕ) (h : 1 ≤ num_epochs) :
    ((trainSkeleton num_epochs n_metrics).2).isSome := by
  induction num_epochs with
  | zero => omega
  | succ k ih =>
    have hstep : trainSkeleton (k + 1) n_metrics =
        metricsFold n_metrics (trainSkeleton k n_metrics) k := by
      simp [trainSkeleton, List.range_succ, List.foldl_append]
    rw [hstep, metricsFold]
    by_cases hk : k = 0
    · subst hk
      simp
    · have hsome := ih (by omega)
      obtain ⟨l, hl⟩ := Option.isSome_iff_exists.mp hsome
      by_cases hm : k % n_metrics = 0
      · simp [hm, hk, hl]
      · simp [hm, hl]

/-- C10: `train` needs `num_epochs ≥ 1`: with `num_epochs = 0` the epoch
loop never runs, `metrics_list` is never assigned and the final return
fails; with `num_epochs ≥ 1` the returned loss list has exactly
`num_epochs` entries. -/
theorem train_requires_one_epoch (num_epochs n_metrics : ℕ) (h : 1 ≤ num_epochs) :
    trainReturn 0 n_metrics = none ∧
    ∃ p, trainReturn num_epochs n_metrics = some p ∧ p.1.length = num_epochs := by
  constructor
  · rfl
  · obtain ⟨l, hl⟩ := Option.isSome_iff_exists.mp
      (trainSkeleton_ml_isSome num_epochs n_metrics h)
    refine ⟨((trainSkeleton num_epochs n_metrics).1, l), ?_, ?_⟩
    · simp [trainReturn, hl]
    · exact trainSkeleton_loss_length num_epochs n_metrics

/-- Witness for C10 at `num_epochs = 3`, `n_metrics = 25`. -/
theorem train_requires_one_epoch_witness :
    1 ≤ 3 ∧ (trainReturn 0 25 = none ∧
      ∃ p, trainReturn 3 25 = some p ∧ p.1.length = 3) :=
  ⟨by decide, train_requires_one_epoch 3 25 (by decide)⟩

/-- Counterexample to C5 as stated: on an epoch that records metrics,
`MetricsRecord` (source lines 192-235) happens strictly before
`OptimizerStep` (source line 237), not after it. -/
theorem metrics_before_optimizer_counterexample :
    Step.metricsRecord ∈ epochTrace false false true ∧
    (epochTrace false false true).indexOf Step.metricsRecord <
      (epochTrace false false true).indexOf Step.optimizerStep := by decide

/-- C5 (amended): within every epoch the steps occur in the order
SampleStep, BufferUpdate, LossAssembly, Backprop, optional
ControlVariateInjection, optional GradientClip, optional MetricsRecord,
OptimizerStep, ParamSync; on epochs where metrics are recorded,
MetricsRecord happens after Backprop (and after the optional clip) but
before OptimizerStep and ParamSync of that epoch. -/
theorem epoch_step_order (cv cl rec : Bool) :
    ((epochTrace cv cl rec).indexOf Step.sampleStep <
        (epochTrace cv cl rec).indexOf Step.bufferUpdate ∧
      (epochTrace cv cl rec).indexOf Step.bufferUpdate <
        (epochTrace cv cl rec).indexOf Step.lossAssembly ∧
      (epochTrace cv cl rec).indexOf Step.lossAssembly <
        (epochTrace cv cl rec).indexOf Step.backprop ∧
      (epochTrace cv cl rec).indexOf Step.backprop <
        (epochTrace cv cl rec).indexOf Step.optimizerStep ∧
      (epochTrace cv cl rec).indexOf Step.optimizerStep <
        (epochTrace cv cl rec).indexOf Step.paramSync) ∧
    ((epochTrace true cl rec).indexOf Step.backprop <
        (epochTrace true cl rec).indexOf Step.controlVariateInjection ∧
      (epochTrace true cl rec).indexOf Step.controlVariateInjection <
        (epochTrace true cl rec).indexOf Step.optimizerStep) ∧
    ((epochTrace true true rec).indexOf Step.controlVariateInjection <
        (epochTrace true true rec).indexOf Step.gradientClip ∧
      (epochTrace cv true rec).indexOf Step.backprop <
        (epochTrace cv true rec).indexOf Step.gradientClip ∧
      (epochTrace cv true rec).indexOf Step.gradientClip <
        (epochTrace cv true rec).indexOf Step.optimizerStep) ∧
    (Step.metricsRecord ∈ epochTrace cv cl true ∧
      (epochTrace cv cl true).indexOf Step.backprop <
        (epochTrace cv cl true).indexOf Step.metricsRecord ∧
      (epochTrace cv true true).indexOf Step.gradientClip <
        (epochTrace cv true true).indexOf Step.metricsRecord ∧
      (epochTrace cv cl true).indexOf Step.metricsRecord <
        (epochTrace cv cl true).indexOf Step.optimizerStep ∧
      (epochTrace cv cl true).indexOf Step.metricsRecord <
        (epochTrace cv cl true).indexOf Step.paramSync) := by
  cases cv <;> cases cl <;> cases rec <;> decide

/-- Counterexample to C1 as stated: with `beta = 1/2` and two buffered
entries, the code's discount factors (source line 132) are `[1, 1/2]` in
buffer order (oldest first, because `torch.cat(mask_spikes_fr_list, 1)`
concatenates the Python list whose head is the oldest entry), so the most
recently pushed entry receives weight `1/2 = beta^1`, not `beta^0 = 1`. -/
theorem discount_weights_counterexample :
    entry_weights (1/2) 2 = [1, 1/2] ∧
    (weights_code (1/2) 2 1).getLast? = some (1/2) ∧ ((1/2 : ℝ) ≠ 1) := by
  have h : entry_weights (1/2) 2 = [1, 1/2] := by
    norm_num [entry_weights, List.range_succ]
  refine ⟨h, ?_, by norm_num⟩
  rw [weights_code, h]
  simp [List.flatMap]

/-- C1 (amended): the per-entry discount weights applied to the simulated
features are `beta ^ i` with `i` the buffer position counted from the
oldest retained entry: the oldest entry (buffer index 0, the first block
of concatenated columns) always receives weight `beta^0 = 1` and the most
recently pushed entry receives `beta^(m-1)`. -/
theorem discount_weights_oldest_first (beta : ℝ) (m : ℕ) (hm : 1 ≤ m) :
    (∀ i, i < m → (entry_weights beta m)[i]? = some (beta ^ i)) ∧
    (entry_weights beta m)[0]? = some 1 ∧
    (entry_weights beta m)[m - 1]? = some (beta ^ (m - 1)) := by
  have hi : ∀ i, i < m → (entry_weights beta m)[i]? = some (beta ^ i) := by
    intro i hlt
    simp [entry_weights, List.getElem?_map, List.getElem?_range, hlt]
  refine ⟨hi, ?_, hi (m - 1) (by omega)⟩
  have := hi 0 (by omega)
  simpa using this

/-- Witness for C1's amended theorem at `beta = 1/2`, `m = 2`. -/
theorem discount_weights_oldest_first_witness :
    (entry_weights (1/2) 2)[0]? = some 1 ∧
    (entry_weights (1/2) 2)[2 - 1]? = some ((1/2 : ℝ) ^ (2 - 1)) :=
  (discount_weights_oldest_first (1/2) 2 (by norm_num)).2

/-- Helper: with capacity 1 the buffer after any epoch's update is just the
freshly pushed entry. -/
theorem bufferPush_capacity_one {α : Type} (xs : List α) (x : α) :
    bufferPush 1 (pushAll 1 xs) x = [x] := by
  have hd := pushAll_eq_drop 1 le_rfl xs
  have hlen : (pushAll 1 xs).length ≤ 1 := by
    rw [hd, List.length_drop]; omega
  rw [bufferPush]
  by_cases h : 1 ≤ (pushAll 1 xs).length
  · have hnil : (pushAll 1 xs).drop 1 = [] := by
      rw [List.drop_eq_nil_iff]; omega
    rw [if_pos h, hnil]
    rfl
  · have hnil : pushAll 1 xs = [] := by
      have : (pushAll 1 xs).length = 0 := by omega
      exact List.length_eq_zero.mp this
    rw [if_neg h, hnil]
    rfl

/-- C3: with `n_iterations_store = 1` the buffered loop degenerates to a
no-history loop: after the epoch's buffer update the buffer holds exactly
the freshly simulated entry, its concatenated weighted features are the
fresh features unchanged, and every discount weight is `beta^0 = 1`. -/
theorem capacity_one_no_history {α : Type} (beta : ℝ) (xs : List α) (x : α)
    (phis : List (List ℝ)) (freshPhi : List ℝ) (n_batch_fr : ℕ) :
    bufferPush 1 (pushAll 1 xs) x = [x] ∧
    effective_phi beta (bufferPush 1 (pushAll 1 phis) freshPhi) = freshPhi ∧
    weights_code beta (bufferPush 1 (pushAll 1 xs) x).length n_batch_fr =
      List.replicate n_batch_fr 1 := by
  refine ⟨bufferPush_capacity_one xs x, ?_, ?_⟩
  · rw [bufferPush_capacity_one]
    simp [effective_phi]
  · rw [bufferPush_capacity_one]
    have hr : List.range 1 = [0] := rfl
    simp [weights_code, entry_weights, List.flatMap, hr]

/-- C6: with `biased=False`, the unbiased estimator's denominator
`n_batch_fr * (n_batch_fr - 1)` (used unconditionally in the feature-map
mode, source line 139, and the kernel mode, source line 153) is zero for
every batch size `n_batch_fr ≤ 1`, and nonzero whenever `n_batch_fr ≥ 2`. -/
theorem unbiased_denominator_degenerate (n_batch_fr : ℕ) :
    (n_batch_fr ≤ 1 → unbiased_denominator n_batch_fr = 0) ∧
    (2 ≤ n_batch_fr → unbiased_denominator n_batch_fr ≠ 0) := by
  constructor
  · intro h
    interval_cases n_batch_fr <;> decide
  · intro h
    have h1 : (2:ℤ) ≤ (n_batch_fr : ℤ) := by exact_mod_cast h
    have h2 : (0:ℤ) < (n_batch_fr : ℤ) := by omega
    have h3 : (0:ℤ) < (n_batch_fr : ℤ) - 1 := by omega
    exact ne_of_gt (mul_pos h2 h3)

/-- Witness for C6 at `n_batch_fr = 1` and `n_batch_fr = 2`. -/
theorem unbiased_denominator_degenerate_witness :
    unbiased_denominator (1 : ℕ) = 0 ∧ unbiased_denominator (2 : ℕ) ≠ 0 :=
  ⟨(unbiased_denominator_degenerate 1).1 (by decide),
    (unbiased_denominator_degenerate 2).2 (by decide)⟩

/-- Counterexample to C7 as stated: with capacity `n_iterations_store = 2`,
a buffer already holding one entry (one trial column `0`) and a fresh
minibatch whose mask is the single column `1`, the spike-mask tensor passed
to `self._score` (source line 172) is the concatenated buffer `[0, 1]`, not
the freshly simulated mask `[1]`. -/
theorem score_mask_counterexample :
    score_mask_arg 2 [[0]] [1] = [0, 1] ∧ score_mask_arg 2 [[0]] [1] ≠ [1] := by
  decide

/-- C7 (amended): the control-variate scores are evaluated on the current
epoch's fresh design matrix `X_fr` but on the concatenated multi-epoch
buffered spike mask `mask_spikes_fr`; the mask argument equals the freshly
simulated minibatch's mask exactly in the degenerate case
`n_iterations_store = 1`. -/
theorem score_mask_is_buffer_concat {α : Type} (cap : ℕ) (buf : List (List α))
    (fresh : List α) (xs : List (List α)) :
    score_mask_arg cap buf fresh = (bufferPush cap buf fresh).flatten ∧
    score_mask_arg 1 (pushAll 1 xs) fresh = fresh := by
  refine ⟨rfl, ?_⟩
  rw [score_mask_arg, bufferPush_capacity_one]
  simp

/-- Helper: the spiking sum of the NLL vanishes on an all-zero mask. -/
theorem nll_spike_sum_zero (dt : ℝ) (rs ss : List ℝ) (hs : ∀ s ∈ ss, s = 0) :
    (List.zipWith (fun r s => Real.log (1 - Real.exp (-dt * r)) * s) rs ss).sum = 0 := by
  induction rs generalizing ss with
  | nil => simp
  | cons r rs ih =>
    cases ss with
    | nil => simp
    | cons s ss =>
      have hs0 : s = 0 := hs s (by simp)
      have hrest : ∀ x ∈ ss, x = 0 := fun x hx => hs x (by simp [hx])
      simp only [List.zipWith_cons_cons, List.sum_cons, hs0, mul_zero, zero_add]
      exact ih ss hrest

/-- Helper: the non-spiking sum of the NLL reduces to the sum of the rates
on an all-zero mask of matching length. -/
theorem nll_nospike_sum_rates (rs ss : List ℝ) (hs : ∀ s ∈ ss, s = 0)
    (hlen : rs.length = ss.length) :
    (List.zipWith (fun r s => r * (1 - s)) rs ss).sum = rs.sum := by
  induction rs generalizing ss with
  | nil => simp
  | cons r rs ih =>
    cases ss with
    | nil => simp at hlen
    | cons s ss =>
      have hs0 : s = 0 := hs s (by simp)
      have hrest : ∀ x ∈ ss, x = 0 := fun x hx => hs x (by simp [hx])
      have hlen' : rs.length = ss.length := by simpa using hlen
      simp [hs0, ih ss hrest hlen']

/-- C4: `_neg_log_likelihood` returns exactly
`-( Σ log(1 - exp(-dt·r))·spikes − dt·Σ r·(1−spikes) )` with `r` the
nonlinearity applied to the contraction `X·theta`; in particular, for a
rate array of all ones, a spike mask of all zeros and `dt = 1`, it returns
the sum of the rate array. -/
theorem neg_log_likelihood_spec (nl : NonLinearity) (dt : ℝ) (mask : List ℝ)
    (X : List (List ℝ)) (theta : List ℝ) (hdt : 0 < dt)
    (hmask : ∀ s ∈ mask, s = 0 ∨ s = 1) :
    neg_log_likelihood nl dt mask X theta = specNLL nl dt mask X theta ∧
    (dt = 1 → (∀ s ∈ mask, s = 0) → (∀ r ∈ rate nl X theta, r = 1) →
      (rate nl X theta).length = mask.length →
      neg_log_likelihood nl dt mask X theta = (rate nl X theta).sum) := by
  refine ⟨rfl, ?_⟩
  intro hdt1 hzero _ hlen
  rw [neg_log_likelihood, nll_spike_sum_zero dt _ _ hzero,
    nll_nospike_sum_rates _ _ hzero hlen, hdt1]
  ring

/-- Witness for C4: `nl = exp`, `X = [[1]]`, `theta = [0]` gives the rate
array `[exp 0] = [1]`; with mask `[0]` and `dt = 1` the NLL equals the sum
of the rates. -/
theorem neg_log_likelihood_spec_witness :
    (0:ℝ) < 1 ∧
    neg_log_likelihood NonLinearity.exp 1 [0] [[1]] [0] =
      (rate NonLinearity.exp [[1]] [0]).sum := by
  refine ⟨one_pos, ?_⟩
  exact (neg_log_likelihood_spec NonLinearity.exp 1 [0] [[1]] [0] one_pos
      (by norm_num)).2 rfl (by norm_num)
    (by simp [rate, contraction, dic_nonlinearities])
    (by simp [rate, contraction])

/-- C8: the rate obtained by applying either configured nonlinearity to the
contraction `X·theta` is strictly positive. -/
theorem rate_pos (nl : NonLinearity) (X : List (List ℝ)) (theta : List ℝ)
    (r : ℝ) (hr : r ∈ rate nl X theta) : 0 < r := by
  rcases List.mem_map.mp hr with ⟨u, _, rfl⟩
  cases nl with
  | exp => simpa [dic_nonlinearities] using Real.exp_pos u
  | log_exp =>
    have h1 : (1:ℝ) < 1 + Real.exp u := by linarith [Real.exp_pos u]
    simpa [dic_nonlinearities] using Real.log_pos h1

/-- Witness for C8: the rate of `X = [[1]]`, `theta = [0]` under the
exponential nonlinearity contains `exp 0`, which is positive. -/
theorem rate_pos_witness :
    Real.exp 0 ∈ rate NonLinearity.exp [[1]] [0] ∧ 0 < Real.exp 0 :=
  ⟨by simp [rate, contraction, dic_nonlinearities],
    rate_pos NonLinearity.exp [[1]] [0] (Real.exp 0)
      (by simp [rate, contraction, dic_nonlinearities])⟩

/-- C9: the NLL's spiking term is not epsilon-guarded: at a spiked bin
with rate `0` it applies `log` to `1 - exp(0) = 0` (a `log(0)`, i.e.
`-inf` in the source's floating-point evaluation), whereas the surrogate
`log_proba` of the same loop adds `1e-24` inside the log, whose argument
at the same input is the strictly positive `1e-24`. -/
theorem nll_unguarded_surrogate_guarded (dt : ℝ) :
    nll_log_argument dt 0 = 0 ∧
    nll_log_term dt 0 1 = Real.log 0 ∧
    surrogate_log_argument dt 0 = 1e-24 ∧
    0 < surrogate_log_argument dt 0 := by
  have h1 : nll_log_argument dt 0 = 0 := by
    simp [nll_log_argument]
  refine ⟨h1, ?_, ?_, ?_⟩
  · rw [nll_log_term, h1]
    ring
  · simp [surrogate_log_argument]
  · simp [surrogate_log_argument]
    norm_num

end MMDGLM
